import Mathlib

/-!
Shallow embedding of the windowing core of `yew-virtualized` (src/lib.rs and
src/resize_observer.rs) and proofs of the specified properties.

Modelling conventions:
* `f64` item heights are modelled as exact rationals `ℚ` (the claims are about
  the summation algorithm, not about rounding).
* `i32` quantities (`scroll_top`, `host_height`) are modelled as `ℤ`;
  `usize` indices/counts are modelled as `ℕ` (no overflow is reachable:
  `usize::saturating_sub` is `Nat.sub`, `usize::saturating_add` never
  saturates at list-index magnitudes).
* A Rust panic (`unwrap`, out-of-bounds `Vec` indexing) is modelled as `none`
  of an `Option`-valued function.
-/

namespace YewVirtualized

/-- The overscan constant `EXTRA_BUFFER` of `generate_scroll_state`
(src/lib.rs line 226). -/
def EXTRA_BUFFER : ℕ := 5

/-- Cumulative height of the items with indices `[0, k)` of a heights table,
i.e. the running `passed_height` of the forward scans just before item `k`. -/
def cumHeight (es : List ℚ) (k : ℕ) : ℚ := (es.take k).sum

/-- Embedding of `Vec::resize(new_count, prior)` as applied to `element_sizes`
in `generate_scroll_state` (src/lib.rs line 221): truncate to `newCount`
entries when longer, extend with copies of `prior` when shorter. -/
def resizeSizes (sizes : List ℚ) (newCount : ℕ) (prior : ℚ) : List ℚ :=
  sizes.take newCount ++ List.replicate (newCount - sizes.length) prior

/-- Embedding of the first forward scan of `generate_scroll_state`
(src/lib.rs lines 232-244).  Arguments: the remaining suffix of
`element_sizes`, the current index `i`, the accumulated `passed_height`, the
ring buffer `before_ring_buffered` and the write position
`before_ring_buff_idx`.  Returns the break index (`none` when the loop runs
to completion) together with the final ring buffer. -/
def firstLoop (scrollTop : ℚ) : List ℚ → ℕ → ℚ → List ℚ → ℕ → Option ℕ × List ℚ
  | [], _, _, ring, _ => (none, ring)
  | iSize :: rest, i, passed, ring, ringIdx =>
    if scrollTop ≤ passed + iSize then (some i, ring)
    else
      firstLoop scrollTop rest (i + 1) (passed + iSize)
        (ring.set ringIdx passed) ((ringIdx + 1) % EXTRA_BUFFER)

/-- Embedding of the second forward scan of `generate_scroll_state`
(src/lib.rs lines 248-256): starting at index `i` with accumulated height
`passed`, find the first index whose accumulated height reaches
`scrollTop + hostHeight` and return `i.saturating_add(1 + EXTRA_BUFFER)`;
`none` when the loop runs to completion (leaving `past_last_idx` at its
initialisation value). -/
def secondLoop (limit : ℚ) : List ℚ → ℕ → ℚ → Option ℕ
  | [], _, _ => none
  | iSize :: rest, i, passed =>
    if limit ≤ passed + iSize then some (i + (1 + EXTRA_BUFFER))
    else secondLoop limit rest (i + 1) (passed + iSize)

/-- The `EffectiveScrollState` struct (src/lib.rs lines 146-151). -/
structure EffectiveScrollState where
  first_idx : ℕ
  past_last_idx : ℕ
  hidden_before : ℚ
  hidden_after : ℚ
deriving Repr, DecidableEq

/-- The first scan of `generate_scroll_state` as run from its initial state:
`passed_height = 0`, zeroed ring buffer, write position `0`. -/
def firstScan (es : List ℚ) (scroll_top : ℤ) : Option ℕ × List ℚ :=
  firstLoop (scroll_top : ℚ) es 0 0 (List.replicate EXTRA_BUFFER 0) 0

/-- The boundary index found by the first scan: the first index whose
accumulated height reaches `scroll_top` (`none` when the scan exhausts the
list, in which case the Rust code leaves `first_idx` at `item_count`). -/
def boundaryIndex (es : List ℚ) (scroll_top : ℤ) : Option ℕ :=
  (firstScan es scroll_top).1

/-- The pure windowing computation of `generate_scroll_state`
(src/lib.rs lines 224-265), taking the already-resized `element_sizes`. -/
def windowCore (es : List ℚ) (item_count : ℕ) (scroll_top host_height : ℤ) :
    EffectiveScrollState :=
  let scan := firstScan es scroll_top
  let first_idx := (scan.1.getD item_count - EXTRA_BUFFER).min item_count
  let hidden_before := scan.2.getD (first_idx % EXTRA_BUFFER) 0
  let pastLast :=
    secondLoop ((scroll_top + host_height : ℤ) : ℚ) (es.drop first_idx)
      first_idx hidden_before
  let past_last_idx := (pastLast.getD item_count).min item_count
  let hidden_after := (es.drop past_last_idx).sum
  ⟨first_idx, past_last_idx, hidden_before, hidden_after⟩

/-- Embedding of `ScrollManager::generate_scroll_state`
(src/lib.rs lines 216-266): first resize `element_sizes` to `item_count`
entries (the only mutation the method performs — returned as the second
component), then run the pure windowing computation on the resized table. -/
def generate_scroll_state (sizes : List ℚ) (item_count : ℕ) (prior : ℚ)
    (scroll_top host_height : ℤ) : EffectiveScrollState × List ℚ :=
  let es := resizeSizes sizes item_count prior
  (windowCore es item_count scroll_top host_height, es)

/-- Embedding of `ItemSize::as_scroll_size` (src/lib.rs lines 64-70):
`usize::try_into::<i32>()` followed by `unwrap`.  The conversion succeeds
exactly when the pixel count fits into an `i32`, i.e. is at most
`2^31 - 1`; otherwise `unwrap` panics (`none`). -/
def as_scroll_size (pxs : ℕ) : Option ℤ :=
  if pxs < 2 ^ 31 then some (pxs : ℤ) else none

/-- `generate_scroll_state` as reached from the `height_prior` prop in pixels
(src/lib.rs line 217): the very first step of every recompute converts the
estimate via `as_scroll_size`, so the whole recompute panics (`none`) exactly
when that conversion does. -/
def generate_scroll_state_px (sizes : List ℚ) (item_count : ℕ) (prior_px : ℕ)
    (scroll_top host_height : ℤ) : Option (EffectiveScrollState × List ℚ) :=
  (as_scroll_size prior_px).map fun ih =>
    generate_scroll_state sizes item_count (ih : ℚ) scroll_top host_height

/-- Embedding of one entry of the resize-notification handler installed by
`ScrollManager::new` (src/lib.rs lines 180-188):
`element_sizes[pos] = change.content_rect().height()`.  Rust `Vec` indexing
panics when `pos` is out of bounds, modelled as `none`; otherwise the single
entry is overwritten with the reported height, verbatim. -/
def handleResizeEntry (element_sizes : List ℚ) (pos : ℕ) (height : ℚ) :
    Option (List ℚ) :=
  if pos < element_sizes.length then some (element_sizes.set pos height)
  else none

/-- State of the rate-limiting sampler built by `debounced`
(src/lib.rs lines 331-345).  `pending` models the `Option<Timeout>` cell
together with the payload captured by the armed timer closure; `emitted`
logs the payloads passed to the downstream callback, in order. -/
structure SamplerState (E : Type) where
  pending : Option E
  emitted : List E
deriving Repr

/-- A raw scroll notification reaching the sampler (the closure inside
`debounced`): when a timer is already pending the event is dropped entirely;
otherwise a timer is armed, capturing the payload of this event. -/
def rawEvent {E : Type} (s : SamplerState E) (e : E) : SamplerState E :=
  match s.pending with
  | some _ => s
  | none => { s with pending := some e }

/-- The armed timer firing (the `Timeout` body inside `debounced`): emit the
captured payload downstream and clear the pending cell; a fire with nothing
pending does nothing. -/
def timerFire {E : Type} (s : SamplerState E) : SamplerState E :=
  match s.pending with
  | some e => { pending := none, emitted := s.emitted ++ [e] }
  | none => s

/-- Invariant of the ring buffer during the first scan, at loop index `i`:
the buffer has its fixed size, the slots for the last `EXTRA_BUFFER` scanned
indices hold the cumulative heights strictly before those indices, and the
still-unwritten slots (when fewer than `EXTRA_BUFFER` indices were scanned)
hold their initial value `0`. -/
def RingInv (es : List ℚ) (i : ℕ) (ring : List ℚ) : Prop :=
  ring.length = EXTRA_BUFFER ∧
  (∀ k, k < i → i ≤ k + EXTRA_BUFFER →
    ring.getD (k % EXTRA_BUFFER) 0 = cumHeight es k) ∧
  (∀ m, i ≤ m → m < EXTRA_BUFFER → ring.getD m 0 = 0)

@[simp]
theorem EXTRA_BUFFER_eq : EXTRA_BUFFER = 5 := rfl

@[simp]
theorem cumHeight_zero (es : List ℚ) : cumHeight es 0 = 0 := by
  simp [cumHeight]

theorem cumHeight_succ (es : List ℚ) (i : ℕ) (h : ℚ) (hget : es[i]? = some h) :
    cumHeight es (i + 1) = cumHeight es i + h := by
  simp [cumHeight, List.take_succ, hget]

theorem cumHeight_length (es : List ℚ) : cumHeight es es.length = es.sum := by
  simp [cumHeight]

theorem cumHeight_of_length_le (es : List ℚ) (k : ℕ) (h : es.length ≤ k) :
    cumHeight es k = es.sum := by
  simp [cumHeight, List.take_of_length_le h]

theorem sum_drop (es : List ℚ) (k : ℕ) :
    (es.drop k).sum = es.sum - cumHeight es k := by
  have h : (es.take k).sum + (es.drop k).sum = es.sum := by
    rw [← List.sum_append, List.take_append_drop]
  unfold cumHeight
  linarith

theorem resizeSizes_length (sizes : List ℚ) (newCount : ℕ) (prior : ℚ) :
    (resizeSizes sizes newCount prior).length = newCount := by
  simp only [resizeSizes, List.length_append, List.length_take,
    List.length_replicate, Nat.min_def]
  split <;> omega

theorem resizeSizes_self (sizes : List ℚ) (newCount : ℕ) (prior : ℚ)
    (h : sizes.length = newCount) : resizeSizes sizes newCount prior = sizes := by
  subst h
  simp [resizeSizes]

theorem ringInv_init (es : List ℚ) :
    RingInv es 0 (List.replicate EXTRA_BUFFER 0) := by
  refine ⟨List.length_replicate _ _, ?_, ?_⟩
  · intro k hk _
    omega
  · intro m _ hm
    rw [List.getD_eq_getElem?_getD, List.getElem?_replicate, if_pos hm]
    rfl

theorem ringInv_step (es : List ℚ) (i : ℕ) (ring : List ℚ)
    (hInv : RingInv es i ring) :
    RingInv es (i + 1) (ring.set (i % EXTRA_BUFFER) (cumHeight es i)) := by
  obtain ⟨hlen, hcov, hinit⟩ := hInv
  refine ⟨by rw [List.length_set, hlen], ?_, ?_⟩
  · intro k hk hk5
    rcases Nat.lt_succ_iff_lt_or_eq.mp hk with hk' | rfl
    · have hne : i % EXTRA_BUFFER ≠ k % EXTRA_BUFFER := by
        simp only [EXTRA_BUFFER_eq] at hk5 ⊢
        omega
      rw [List.getD_eq_getElem?_getD, List.getElem?_set_ne hne,
        ← List.getD_eq_getElem?_getD]
      exact hcov k hk' (by omega)
    · have hmod : k % EXTRA_BUFFER < ring.length := by
        rw [hlen]
        exact Nat.mod_lt _ (by norm_num [EXTRA_BUFFER_eq])
      rw [List.getD_eq_getElem?_getD, List.getElem?_set_self hmod]
      rfl
  · intro m hm hm5
    have hne : i % EXTRA_BUFFER ≠ m := by
      have : i < EXTRA_BUFFER := by omega
      rw [Nat.mod_eq_of_lt this]
      omega
    rw [List.getD_eq_getElem?_getD, List.getElem?_set_ne hne,
      ← List.getD_eq_getElem?_getD]
    exact hinit m (by omega) hm5

theorem ringInv_read (es : List ℚ) (b : ℕ) (ring : List ℚ)
    (h : RingInv es b ring) :
    ring.getD ((b - EXTRA_BUFFER) % EXTRA_BUFFER) 0 =
      cumHeight es (b - EXTRA_BUFFER) := by
  obtain ⟨hlen, hcov, hinit⟩ := h
  have hEB : EXTRA_BUFFER = 5 := rfl
  rcases le_or_lt EXTRA_BUFFER b with h5 | h5
  · exact hcov (b - EXTRA_BUFFER) (by omega) (by omega)
  · have hz : b - EXTRA_BUFFER = 0 := by omega
    rw [hz]
    rcases Nat.eq_zero_or_pos b with rfl | hb
    · rw [Nat.zero_mod]
      simpa using hinit 0 (Nat.zero_le _) (by omega)
    · simpa using hcov 0 hb (by omega)

theorem firstLoop_break (s : ℚ) (es : List ℚ) (l : List ℚ) :
    ∀ (i : ℕ) (ring ring2 : List ℚ) (b : ℕ),
      es.drop i = l → RingInv es i ring →
      firstLoop s l i (cumHeight es i) ring (i % EXTRA_BUFFER) = (some b, ring2) →
      i ≤ b ∧ b < es.length ∧ RingInv es b ring2 ∧ s ≤ cumHeight es (b + 1) ∧
        ∀ j, i ≤ j → j < b → cumHeight es (j + 1) < s := by
  induction l with
  | nil =>
    intro i ring ring2 b hdrop hInv heq
    simp [firstLoop] at heq
  | cons iSize rest ih =>
    intro i ring ring2 b hdrop hInv heq
    have hlen : i < es.length := by
      have := congrArg List.length hdrop
      simp only [List.length_drop, List.length_cons] at this
      omega
    have hget : es[i]? = some iSize := by
      have h0 := List.getElem?_drop es i 0
      rw [hdrop] at h0
      simpa using h0.symm
    have hdrop2 : es.drop (i + 1) = rest := by
      have h1 : es.drop (i + 1) = (es.drop i).drop 1 := by
        rw [List.drop_drop]
      rw [h1, hdrop]
      rfl
    have hcum : cumHeight es (i + 1) = cumHeight es i + iSize :=
      cumHeight_succ es i iSize hget
    simp only [firstLoop] at heq
    split at heq
    · rename_i hcond
      injection heq with hb hring
      injection hb with hb
      subst hb
      subst hring
      refine ⟨le_refl i, hlen, hInv, by rw [hcum]; exact hcond, ?_⟩
      intro j h1 h2
      omega
    · rename_i hcond
      have hstep := ringInv_step es i ring hInv
      have hidx : (i % EXTRA_BUFFER + 1) % EXTRA_BUFFER =
          (i + 1) % EXTRA_BUFFER := by
        simp only [EXTRA_BUFFER_eq]
        omega
      rw [hidx, ← hcum] at heq
      obtain ⟨h1, h2, h3, h4, h5⟩ := ih (i + 1) _ ring2 b hdrop2 hstep heq
      refine ⟨by omega, h2, h3, h4, ?_⟩
      intro j hij hjb
      rcases Nat.lt_or_ge i j with hij' | hij'
      · exact h5 j (by omega) hjb
      · have hji : j = i := by omega
        subst hji
        rw [hcum]
        exact lt_of_not_ge hcond


theorem firstLoop_none (s : ℚ) (es : List ℚ) (l : List ℚ) :
    ∀ (i : ℕ) (ring ring2 : List ℚ),
      es.drop i = l → i ≤ es.length → RingInv es i ring →
      firstLoop s l i (cumHeight es i) ring (i % EXTRA_BUFFER) = (none, ring2) →
      RingInv es es.length ring2 ∧
        ∀ j, i ≤ j → j < es.length → cumHeight es (j + 1) < s := by
  induction l with
  | nil =>
    intro i ring ring2 hdrop hile hInv heq
    have hlen : es.length ≤ i := by
      have := congrArg List.length hdrop
      simp only [List.length_drop, List.length_nil] at this
      omega
    have hieq : i = es.length := by omega
    simp only [firstLoop] at heq
    injection heq with _ hring
    subst hring
    subst hieq
    exact ⟨hInv, fun j h1 h2 => by omega⟩
  | cons iSize rest ih =>
    intro i ring ring2 hdrop hile hInv heq
    have hlen : i < es.length := by
      have := congrArg List.length hdrop
      simp only [List.length_drop, List.length_cons] at this
      omega
    have hget : es[i]? = some iSize := by
      have h0 := List.getElem?_drop es i 0
      rw [hdrop] at h0
      simpa using h0.symm
    have hdrop2 : es.drop (i + 1) = rest := by
      have h1 : es.drop (i + 1) = (es.drop i).drop 1 := by
        rw [List.drop_drop]
      rw [h1, hdrop]
      rfl
    have hcum : cumHeight es (i + 1) = cumHeight es i + iSize :=
      cumHeight_succ es i iSize hget
    simp only [firstLoop] at heq
    split at heq
    · exact absurd (congrArg Prod.fst heq) (by simp)
    · rename_i hcond
      have hstep := ringInv_step es i ring hInv
      have hidx : (i % EXTRA_BUFFER + 1) % EXTRA_BUFFER =
          (i + 1) % EXTRA_BUFFER := by
        simp only [EXTRA_BUFFER_eq]
        omega
      rw [hidx, ← hcum] at heq
      obtain ⟨h1, h2⟩ := ih (i + 1) _ ring2 hdrop2 (by omega) hstep heq
      refine ⟨h1, ?_⟩
      intro j hij hjl
      rcases Nat.lt_or_ge i j with hij' | hij'
      · exact h2 j (by omega) hjl
      · have hji : j = i := by omega
        subst hji
        rw [hcum]
        exact lt_of_not_ge hcond

theorem firstScan_spec (es : List ℚ) (s : ℤ) :
    (firstScan es s).1.getD es.length ≤ es.length ∧
    RingInv es ((firstScan es s).1.getD es.length) (firstScan es s).2 ∧
    (∀ j, j < (firstScan es s).1.getD es.length →
      cumHeight es (j + 1) < (s : ℚ)) ∧
    ((firstScan es s).1.getD es.length < es.length →
      (s : ℚ) ≤ cumHeight es ((firstScan es s).1.getD es.length + 1)) := by
  rcases hscan : firstScan es s with ⟨res, ring⟩
  have hloop : firstLoop (s : ℚ) es 0 (cumHeight es 0)
      (List.replicate EXTRA_BUFFER 0) (0 % EXTRA_BUFFER) = (res, ring) := by
    rw [cumHeight_zero, Nat.zero_mod]
    exact hscan
  cases res with
  | none =>
    obtain ⟨hInv, hmin⟩ := firstLoop_none (s : ℚ) es es 0
      (List.replicate EXTRA_BUFFER 0) ring (List.drop_zero es) (Nat.zero_le _)
      (ringInv_init es) hloop
    simp only [Option.getD_none]
    refine ⟨le_refl _, hInv, ?_, ?_⟩
    · intro j hj
      exact hmin j (Nat.zero_le _) hj
    · intro h
      omega
  | some b =>
    obtain ⟨_, hblt, hInv, hreach, hmin⟩ := firstLoop_break (s : ℚ) es es 0
      (List.replicate EXTRA_BUFFER 0) ring b (List.drop_zero es)
      (ringInv_init es) hloop
    simp only [Option.getD_some]
    refine ⟨Nat.le_of_lt hblt, hInv, ?_, fun _ => hreach⟩
    intro j hj
    exact hmin j (Nat.zero_le _) hj

theorem secondLoop_some_le (limit : ℚ) (l : List ℚ) :
    ∀ (i : ℕ) (p : ℚ) (v : ℕ), secondLoop limit l i p = some v → i ≤ v := by
  induction l with
  | nil =>
    intro i p v heq
    simp [secondLoop] at heq
  | cons iSize rest ih =>
    intro i p v heq
    simp only [secondLoop] at heq
    split at heq
    · injection heq with heq
      omega
    · have := ih (i + 1) (p + iSize) v heq
      omega

theorem windowCore_first_idx (es : List ℚ) (item_count : ℕ)
    (scroll_top host_height : ℤ) :
    (windowCore es item_count scroll_top host_height).first_idx =
      ((firstScan es scroll_top).1.getD item_count - EXTRA_BUFFER).min
        item_count := rfl

theorem windowCore_hidden_before (es : List ℚ) (item_count : ℕ)
    (scroll_top host_height : ℤ) :
    (windowCore es item_count scroll_top host_height).hidden_before =
      (firstScan es scroll_top).2.getD
        ((windowCore es item_count scroll_top host_height).first_idx %
          EXTRA_BUFFER) 0 := rfl

theorem windowCore_past_last_idx (es : List ℚ) (item_count : ℕ)
    (scroll_top host_height : ℤ) :
    (windowCore es item_count scroll_top host_height).past_last_idx =
      ((secondLoop ((scroll_top + host_height : ℤ) : ℚ)
          (es.drop (windowCore es item_count scroll_top host_height).first_idx)
          (windowCore es item_count scroll_top host_height).first_idx
          (windowCore es item_count scroll_top host_height).hidden_before).getD
        item_count).min item_count := rfl

theorem windowCore_hidden_after (es : List ℚ) (item_count : ℕ)
    (scroll_top host_height : ℤ) :
    (windowCore es item_count scroll_top host_height).hidden_after =
      (es.drop
        (windowCore es item_count scroll_top host_height).past_last_idx).sum :=
  rfl

theorem windowCore_hidden_before_exact (es : List ℚ) (item_count : ℕ)
    (scroll_top host_height : ℤ) (hlen : es.length = item_count) :
    (windowCore es item_count scroll_top host_height).hidden_before =
      cumHeight es
        (windowCore es item_count scroll_top host_height).first_idx := by
  obtain ⟨hble, hInv, -, -⟩ := firstScan_spec es scroll_top
  have hfi : (windowCore es item_count scroll_top host_height).first_idx =
      (firstScan es scroll_top).1.getD es.length - EXTRA_BUFFER := by
    rw [windowCore_first_idx, ← hlen]
    exact Nat.min_eq_left (by omega)
  rw [windowCore_hidden_before, hfi]
  exact ringInv_read es _ _ hInv

theorem windowCore_bounds (es : List ℚ) (item_count : ℕ)
    (scroll_top host_height : ℤ) :
    (windowCore es item_count scroll_top host_height).first_idx ≤
      (windowCore es item_count scroll_top host_height).past_last_idx ∧
    (windowCore es item_count scroll_top host_height).past_last_idx ≤
      item_count := by
  have hfi_le : (windowCore es item_count scroll_top host_height).first_idx ≤
      item_count := by
    rw [windowCore_first_idx]
    exact Nat.min_le_right _ _
  constructor
  · rw [windowCore_past_last_idx]
    cases hsl : secondLoop ((scroll_top + host_height : ℤ) : ℚ)
        (es.drop (windowCore es item_count scroll_top host_height).first_idx)
        (windowCore es item_count scroll_top host_height).first_idx
        (windowCore es item_count scroll_top host_height).hidden_before with
    | none => simpa using hfi_le
    | some v =>
      have hv := secondLoop_some_le _ _ _ _ _ hsl
      simp only [Option.getD_some]
      exact le_min hv hfi_le
  · rw [windowCore_past_last_idx]
    exact Nat.min_le_right _ _

theorem firstScan_getD_mono (es : List ℚ) (s1 s2 : ℤ) (h : s1 ≤ s2) :
    (firstScan es s1).1.getD es.length ≤ (firstScan es s2).1.getD es.length := by
  obtain ⟨hb1, -, hmin1, -⟩ := firstScan_spec es s1
  obtain ⟨-, -, -, hsome2⟩ := firstScan_spec es s2
  by_contra hlt
  push_neg at hlt
  have hb2lt : (firstScan es s2).1.getD es.length < es.length :=
    lt_of_lt_of_le hlt hb1
  have h1 := hmin1 _ hlt
  have h2 := hsome2 hb2lt
  have hcast : (s1 : ℚ) ≤ (s2 : ℚ) := by exact_mod_cast h
  linarith

/-- Claim C1: for every heights table, itemCount, scrollOffset ≥ 0 and
viewportExtent ≥ 0, the spacer outputs of the window calculator are exact
partial sums over the (resized) heights table: `hidden_before` is the sum of
heights of items `[0, first_idx)` (which is the value held by the ring-buffer
slot `first_idx % EXTRA_BUFFER` that the code reads, and is `0` whenever
`first_idx = 0`), and `hidden_after` is the sum of heights of items
`[past_last_idx, item_count)`. -/
theorem claim_C1_spacers_exact (sizes : List ℚ) (item_count : ℕ) (prior : ℚ)
    (scroll_top host_height : ℤ) (_hs : 0 ≤ scroll_top) (_hv : 0 ≤ host_height)
    (st : EffectiveScrollState) (es : List ℚ)
    (hgen : generate_scroll_state sizes item_count prior scroll_top
      host_height = (st, es)) :
    st.hidden_before = cumHeight es st.first_idx ∧
    (st.first_idx = 0 → st.hidden_before = 0) ∧
    st.hidden_after =
      cumHeight es item_count - cumHeight es st.past_last_idx := by
  simp only [generate_scroll_state] at hgen
  rw [Prod.mk.injEq] at hgen
  obtain ⟨h1, h2⟩ := hgen
  subst h2
  subst h1
  have hlen := resizeSizes_length sizes item_count prior
  have hb := windowCore_hidden_before_exact (resizeSizes sizes item_count prior)
    item_count scroll_top host_height hlen
  have htot : cumHeight (resizeSizes sizes item_count prior) item_count =
      (resizeSizes sizes item_count prior).sum :=
    cumHeight_of_length_le _ _ (le_of_eq hlen)
  refine ⟨hb, ?_, ?_⟩
  · intro h0
    rw [hb, h0, cumHeight_zero]
  · rw [windowCore_hidden_after, sum_drop, htot]

/-- Witness for C1 at a concrete input: table `[1, 2, 3]` grown to five
items with prior height `7`, scroll offset `2`, viewport height `1`. -/
theorem claim_C1_witness :
    (0 : ℤ) ≤ 2 ∧ (0 : ℤ) ≤ 1 ∧
    ((⟨0, 5, 0, 0⟩ : EffectiveScrollState).hidden_before =
        cumHeight [(1 : ℚ), 2, 3, 7, 7]
          (⟨0, 5, 0, 0⟩ : EffectiveScrollState).first_idx ∧
      ((⟨0, 5, 0, 0⟩ : EffectiveScrollState).first_idx = 0 →
        (⟨0, 5, 0, 0⟩ : EffectiveScrollState).hidden_before = 0) ∧
      (⟨0, 5, 0, 0⟩ : EffectiveScrollState).hidden_after =
        cumHeight [(1 : ℚ), 2, 3, 7, 7] 5 -
          cumHeight [(1 : ℚ), 2, 3, 7, 7]
            (⟨0, 5, 0, 0⟩ : EffectiveScrollState).past_last_idx) :=
  ⟨by decide, by decide,
   claim_C1_spacers_exact [1, 2, 3] 5 7 2 1 (by decide) (by decide)
     ⟨0, 5, 0, 0⟩ [1, 2, 3, 7, 7] (by norm_num [generate_scroll_state,
       windowCore, firstScan, firstLoop, secondLoop, resizeSizes, EXTRA_BUFFER,
       List.replicate])⟩

/-- Claim C2: for every heights table and every itemCount, scrollOffset ≥ 0,
viewportExtent ≥ 0, the calculator returns indices with
`0 ≤ first_idx ≤ past_last_idx ≤ item_count` (the lower bound `0 ≤ first_idx`
is inherent to `ℕ`, the Lean model of `usize`). -/
theorem claim_C2_window_bounds (sizes : List ℚ) (item_count : ℕ) (prior : ℚ)
    (scroll_top host_height : ℤ) (_hs : 0 ≤ scroll_top) (_hv : 0 ≤ host_height)
    (st : EffectiveScrollState) (es : List ℚ)
    (hgen : generate_scroll_state sizes item_count prior scroll_top
      host_height = (st, es)) :
    st.first_idx ≤ st.past_last_idx ∧ st.past_last_idx ≤ item_count := by
  simp only [generate_scroll_state] at hgen
  rw [Prod.mk.injEq] at hgen
  obtain ⟨h1, h2⟩ := hgen
  subst h1
  exact windowCore_bounds _ _ _ _

/-- Witness for C2 at the same concrete input as the C1 witness. -/
theorem claim_C2_witness :
    (⟨0, 5, 0, 0⟩ : EffectiveScrollState).first_idx ≤
      (⟨0, 5, 0, 0⟩ : EffectiveScrollState).past_last_idx ∧
    (⟨0, 5, 0, 0⟩ : EffectiveScrollState).past_last_idx ≤ 5 :=
  claim_C2_window_bounds [1, 2, 3] 5 7 2 1 (by decide) (by decide)
    ⟨0, 5, 0, 0⟩ [1, 2, 3, 7, 7] (by norm_num [generate_scroll_state,
      windowCore, firstScan, firstLoop, secondLoop, resizeSizes, EXTRA_BUFFER,
      List.replicate])

theorem foldl_rawEvent_of_pending {E : Type} (x : E) :
    ∀ (l : List E) (s : SamplerState E), s.pending = some x →
      l.foldl rawEvent s = s := by
  intro l
  induction l with
  | nil =>
    intro s _
    rfl
  | cons e rest ih =>
    intro s hp
    have hre : rawEvent s e = s := by
      simp [rawEvent, hp]
    rw [List.foldl_cons, hre]
    exact ih s hp

/-- Claim C3 counterexample: the claim says an out-of-bounds resize
notification is a silent no-op that neither mutates the table nor propagates
an error or panic; on the code, `element_sizes[pos] = ...` with `pos = 5` on
a one-entry table hits the panicking `Vec` index operator (`none`), so the
handler does not return the table unchanged (`some [1]`). -/
theorem claim_C3_counterexample :
    handleResizeEntry [(1 : ℚ)] 5 2 = none ∧
    handleResizeEntry [(1 : ℚ)] 5 2 ≠ some [(1 : ℚ)] := by
  constructor
  · rfl
  · simp [handleResizeEntry]

/-- Claim C3 amended: when a resize notification reports a position index out
of the current bounds of the size table, the handler does not mutate the
table, but it panics with an index-out-of-bounds error (`Vec` indexing)
instead of being a silent no-op. -/
theorem claim_C3_amended_oob_panics (element_sizes : List ℚ) (pos : ℕ)
    (height : ℚ) (h : element_sizes.length ≤ pos) :
    handleResizeEntry element_sizes pos height = none := by
  simp only [handleResizeEntry]
  rw [if_neg (by omega)]

/-- Witness for the amended C3 at a concrete stale position. -/
theorem claim_C3_amended_witness :
    handleResizeEntry [(1 : ℚ), 2] 7 3 = none :=
  claim_C3_amended_oob_panics [(1 : ℚ), 2] 7 3 (by norm_num)

/-- Claim C8 counterexample: the claim says a malformed (negative) height for
a valid position is clamped to zero before being stored; on the code the
handler stores the reported height verbatim, so position `0` of the table
`[1]` ends up holding `-3`, not `0`. -/
theorem claim_C8_counterexample :
    handleResizeEntry [(1 : ℚ)] 0 (-3) = some [(-3 : ℚ)] ∧
    handleResizeEntry [(1 : ℚ)] 0 (-3) ≠ some [(0 : ℚ)] := by
  constructor
  · norm_num [handleResizeEntry]
  · norm_num [handleResizeEntry]

/-- Claim C8 amended: a resize notification for a valid position stores the
reported height verbatim in the size table — no clamping of negative values
occurs (NaN is outside the exact-rational model of heights). -/
theorem claim_C8_amended_verbatim (element_sizes : List ℚ) (pos : ℕ)
    (height : ℚ) (h : pos < element_sizes.length) :
    handleResizeEntry element_sizes pos height =
      some (element_sizes.set pos height) := by
  simp only [handleResizeEntry]
  rw [if_pos h]

/-- Witness for the amended C8 at a concrete negative height. -/
theorem claim_C8_amended_witness :
    handleResizeEntry [(1 : ℚ), 2] 0 (-5) = some [(-5 : ℚ), 2] := by
  rw [claim_C8_amended_verbatim [(1 : ℚ), 2] 0 (-5) (by norm_num)]
  norm_num

/-- Claim C4: for a burst of raw scroll events in which the first arrives
with no timer pending and all later ones arrive before the timer fires, the
state after the burst still holds the payload of the first event and nothing
was emitted during the burst; the timer firing then emits exactly one
downstream callback carrying the payload of the first event and clears the
armed state.  (Later burst events are dropped outright: the fold leaves the
state unchanged, so nothing is queued.) -/
theorem claim_C4_sampler_leading_edge {E : Type} (e0 : E) (rest : List E)
    (em0 : List E) :
    (rest.foldl rawEvent (rawEvent ⟨none, em0⟩ e0)).pending = some e0 ∧
    (rest.foldl rawEvent (rawEvent ⟨none, em0⟩ e0)).emitted = em0 ∧
    timerFire (rest.foldl rawEvent (rawEvent ⟨none, em0⟩ e0)) =
      ⟨none, em0 ++ [e0]⟩ := by
  have h0 : rawEvent (⟨none, em0⟩ : SamplerState E) e0 = ⟨some e0, em0⟩ := rfl
  have hfold : rest.foldl rawEvent (⟨some e0, em0⟩ : SamplerState E) =
      ⟨some e0, em0⟩ := foldl_rawEvent_of_pending e0 rest _ rfl
  rw [h0, hfold]
  exact ⟨rfl, rfl, rfl⟩

/-- Claim C5: resizing the size table preserves every entry at an index below
`min (oldCount, newCount)` and fills every newly created index
`oldCount ≤ i < newCount` with the prior height. -/
theorem claim_C5_resize_frame (sizes : List ℚ) (newCount : ℕ) (prior : ℚ)
    (i : ℕ) :
    (i < sizes.length → i < newCount →
      (resizeSizes sizes newCount prior)[i]? = sizes[i]?) ∧
    (sizes.length ≤ i → i < newCount →
      (resizeSizes sizes newCount prior)[i]? = some prior) := by
  constructor
  · intro h1 h2
    rw [resizeSizes,
      List.getElem?_append_left (by rw [List.length_take]; exact lt_min h2 h1),
      List.getElem?_take_of_lt h2]
  · intro h1 h2
    have hmin : newCount ⊓ sizes.length = sizes.length :=
      min_eq_right (le_of_lt (lt_of_le_of_lt h1 h2))
    rw [resizeSizes,
      List.getElem?_append_right (by rw [List.length_take, hmin]; exact h1),
      List.length_take, hmin, List.getElem?_replicate, if_pos (by omega)]

/-- Witness for C5: growing `[1, 2, 3]` to five entries keeps index `1` and
fills index `4` with the prior height `7`. -/
theorem claim_C5_witness :
    (resizeSizes [(1 : ℚ), 2, 3] 5 7)[1]? = [(1 : ℚ), 2, 3][1]? ∧
    (resizeSizes [(1 : ℚ), 2, 3] 5 7)[4]? = some 7 :=
  ⟨(claim_C5_resize_frame [(1 : ℚ), 2, 3] 5 7 1).1 (by norm_num) (by norm_num),
   (claim_C5_resize_frame [(1 : ℚ), 2, 3] 5 7 4).2 (by norm_num) (by norm_num)⟩

/-- Claim C6: for a fixed heights table, itemCount and viewportExtent, the
`first_idx` returned by the calculator is monotone in the scroll offset. -/
theorem claim_C6_first_idx_monotone (sizes : List ℚ) (item_count : ℕ)
    (prior : ℚ) (host_height : ℤ) (s1 s2 : ℤ) (h12 : s1 ≤ s2) :
    (generate_scroll_state sizes item_count prior s1 host_height).1.first_idx ≤
      (generate_scroll_state sizes item_count prior s2
        host_height).1.first_idx := by
  have hlen := resizeSizes_length sizes item_count prior
  have hmono := firstScan_getD_mono (resizeSizes sizes item_count prior) s1 s2
    h12
  show (windowCore (resizeSizes sizes item_count prior) item_count s1
      host_height).first_idx ≤
    (windowCore (resizeSizes sizes item_count prior) item_count s2
      host_height).first_idx
  rw [hlen] at hmono
  rw [windowCore_first_idx, windowCore_first_idx]
  exact min_le_min (Nat.sub_le_sub_right hmono _) le_rfl

/-- Witness for C6: twenty unit-height items, scroll offsets 5 and 18. -/
theorem claim_C6_witness :
    (generate_scroll_state [(1 : ℚ), 1, 1, 1, 1, 1, 1, 1, 1, 1, 1, 1, 1, 1, 1,
        1, 1, 1, 1, 1] 20 1 5 0).1.first_idx ≤
      (generate_scroll_state [(1 : ℚ), 1, 1, 1, 1, 1, 1, 1, 1, 1, 1, 1, 1, 1,
        1, 1, 1, 1, 1, 1] 20 1 18 0).1.first_idx :=
  claim_C6_first_idx_monotone [(1 : ℚ), 1, 1, 1, 1, 1, 1, 1, 1, 1, 1, 1, 1, 1,
    1, 1, 1, 1, 1, 1] 20 1 0 5 18 (by norm_num)

/-- Claim C7: whenever the first scan finds a boundary index `b` (so the
boundary is interior, not the past-the-end default) with at least
`EXTRA_BUFFER = 5` items before it, the calculator returns
`first_idx = b - EXTRA_BUFFER`, i.e. the overscan distance is exactly the
overscan constant. -/
theorem claim_C7_overscan_exact (sizes : List ℚ) (item_count : ℕ) (prior : ℚ)
    (scroll_top host_height : ℤ) (b : ℕ)
    (hb : boundaryIndex (resizeSizes sizes item_count prior) scroll_top =
      some b)
    (h5 : EXTRA_BUFFER ≤ b) :
    (generate_scroll_state sizes item_count prior scroll_top
        host_height).1.first_idx + EXTRA_BUFFER = b := by
  have hlen := resizeSizes_length sizes item_count prior
  obtain ⟨hble, -, -, -⟩ :=
    firstScan_spec (resizeSizes sizes item_count prior) scroll_top
  have hres : (firstScan (resizeSizes sizes item_count prior) scroll_top).1 =
      some b := hb
  rw [hres, Option.getD_some] at hble
  show (windowCore (resizeSizes sizes item_count prior) item_count scroll_top
      host_height).first_idx + EXTRA_BUFFER = b
  rw [windowCore_first_idx, hres, Option.getD_some]
  have hEB : EXTRA_BUFFER = 5 := rfl
  have hmin : (b - EXTRA_BUFFER).min item_count = b - EXTRA_BUFFER :=
    Nat.min_eq_left (by omega)
  rw [hmin]
  omega

/-- Witness for C7: eight unit heights, scroll offset 6, boundary index 5. -/
theorem claim_C7_witness :
    boundaryIndex (resizeSizes [(1 : ℚ), 1, 1, 1, 1, 1, 1, 1] 8 1) 6 =
      some 5 ∧
    (generate_scroll_state [(1 : ℚ), 1, 1, 1, 1, 1, 1, 1] 8 1 6 0).1.first_idx
        + EXTRA_BUFFER = 5 :=
  ⟨by norm_num [boundaryIndex, firstScan, firstLoop, resizeSizes, EXTRA_BUFFER,
     List.replicate],
   claim_C7_overscan_exact [(1 : ℚ), 1, 1, 1, 1, 1, 1, 1] 8 1 6 0 5
     (by norm_num [boundaryIndex, firstScan, firstLoop, resizeSizes,
       EXTRA_BUFFER, List.replicate])
     (by norm_num [EXTRA_BUFFER])⟩

/-- Claim C9: calling the calculator twice in succession with identical
inputs yields identical outputs.  The second call observes the
`element_sizes` table as left behind by the first call (the resize inside the
calculator is its only mutation), and still produces the same window. -/
theorem claim_C9_idempotent (sizes : List ℚ) (item_count : ℕ) (prior : ℚ)
    (scroll_top host_height : ℤ) :
    (generate_scroll_state
        (generate_scroll_state sizes item_count prior scroll_top
          host_height).2
        item_count prior scroll_top host_height).1 =
      (generate_scroll_state sizes item_count prior scroll_top
        host_height).1 := by
  show windowCore
      (resizeSizes (resizeSizes sizes item_count prior) item_count prior)
      item_count scroll_top host_height =
    windowCore (resizeSizes sizes item_count prior) item_count scroll_top
      host_height
  rw [resizeSizes_self _ _ _ (resizeSizes_length sizes item_count prior)]

/-- Claim C10: converting the height estimate `ItemSize::Pixels(p)` with
`as_scroll_size` is an unchecked `usize → i32` conversion, so every recompute
panics exactly when `p > 2^31 - 1`; for `p ≤ 2^31 - 1` the conversion is
exact and the recompute runs the calculator on the exact value `p`. -/
theorem claim_C10_prior_px_conversion (sizes : List ℚ) (item_count : ℕ)
    (prior_px : ℕ) (scroll_top host_height : ℤ) :
    (2 ^ 31 - 1 < prior_px →
      generate_scroll_state_px sizes item_count prior_px scroll_top
        host_height = none) ∧
    (prior_px ≤ 2 ^ 31 - 1 →
      generate_scroll_state_px sizes item_count prior_px scroll_top
        host_height =
        some (generate_scroll_state sizes item_count (prior_px : ℚ) scroll_top
          host_height)) := by
  have hpow : (2 : ℕ) ^ 31 = 2147483648 := by norm_num
  constructor
  · intro h
    simp only [generate_scroll_state_px, as_scroll_size]
    rw [if_neg (by omega)]
    rfl
  · intro h
    have hc : ((prior_px : ℤ) : ℚ) = (prior_px : ℚ) := Int.cast_natCast prior_px
    simp only [generate_scroll_state_px, as_scroll_size]
    rw [if_pos (by omega)]
    show some (generate_scroll_state sizes item_count ((prior_px : ℤ) : ℚ)
        scroll_top host_height) =
      some (generate_scroll_state sizes item_count (prior_px : ℚ) scroll_top
        host_height)
    rw [hc]

/-- Witness for C10 at `p = 2^31` (panic) and `p = 100` (exact). -/
theorem claim_C10_witness :
    generate_scroll_state_px [] 0 (2 ^ 31) 0 0 = none ∧
    generate_scroll_state_px [] 0 100 0 0 =
      some (generate_scroll_state [] 0 (100 : ℚ) 0 0) :=
  ⟨(claim_C10_prior_px_conversion [] 0 (2 ^ 31) 0 0).1 (by norm_num),
   (claim_C10_prior_px_conversion [] 0 100 0 0).2 (by norm_num)⟩

end YewVirtualized
